import Mathlib

/-!
Shallow embedding of the ChaosSec iteration state machine
(`src/chaossec/orchestrator.py`, `src/chaossec/agent_brain.py`,
`src/chaossec/aws_handler.py`) together with proofs about the
decision/validation logic, the eight-stage iteration sequencer, the run
loop, the recommendation normalizer and the history analyzer.

External collaborators (System Initiative, Semgrep, Bedrock, the AWS
read/write APIs, Vanta, the history file) are modelled as inputs: each
collaborator call that the Python code performs is represented by a value
or an `Except` value describing the call's outcome.  Python dictionaries
whose shape is dynamic (the parsed model recommendation) are modelled as
association lists over a JSON value type; fixed-shape dictionaries built
by the code itself are modelled as structures whose optional fields encode
keys that are present only on some code paths.
-/

namespace ChaosSec

/-! Python string primitives, modelled on lists of characters so that they
evaluate by kernel reduction.  `pyStrip` models `str.strip()`, `pyLower`
models `str.lower()`, `pySplitLines` models `str.split('\n')`,
`pyStartsWith` models `str.startswith`, and `pyContains s sub` models the
Python expression `sub in s`. -/

/-- Drop leading whitespace characters from a character list. -/
def dropWs : List Char → List Char
  | [] => []
  | c :: t => if c.isWhitespace then dropWs t else c :: t

/-- Model of Python `str.strip()`: remove whitespace from both ends. -/
def pyStrip (s : String) : String :=
  ⟨(dropWs ((dropWs s.data).reverse)).reverse⟩

/-- Model of Python `str.lower()`. -/
def pyLower (s : String) : String :=
  ⟨s.data.map Char.toLower⟩

/-- Split a character list on a separator character; mirrors Python
`str.split(sep)` for a one-character separator (empty pieces kept). -/
def splitOnChar (c : Char) : List Char → List (List Char)
  | [] => [[]]
  | x :: t =>
    let r := splitOnChar c t
    if x = c then [] :: r
    else
      match r with
      | [] => [[x]]
      | h :: t2 => (x :: h) :: t2

/-- Model of Python `str.split('\n')`. -/
def pySplitLines (s : String) : List String :=
  (splitOnChar '\x0a' s.data).map String.mk

/-- Model of Python `str.startswith(p)`. -/
def pyStartsWith (s p : String) : Bool :=
  p.data.isPrefixOf s.data

/-- Substring search on character lists. -/
def listContainsSub (pat : List Char) : List Char → Bool
  | [] => pat.isPrefixOf []
  | x :: t => pat.isPrefixOf (x :: t) || listContainsSub pat t

/-- Model of the Python expression `sub in s` on strings. -/
def pyContains (s sub : String) : Bool :=
  listContainsSub sub.data s.data

/-! JSON values, as produced by `json.loads`.  Python floats are restricted
to integers, which is all the claims need. -/

/-- A JSON value. -/
inductive Json where
  | null
  | bool (b : Bool)
  | num (n : Int)
  | str (s : String)
  | arr (elems : List Json)
  | obj (fields : List (String × Json))

/-- A Python dict with string keys holding JSON values (the parsed model
recommendation), as an association list in insertion order. -/
abbrev RecDict := List (String × Json)

/-- Model of Python `d.get(k)` (`None` when absent). -/
def dictGet (d : RecDict) (k : String) : Option Json :=
  match d with
  | [] => none
  | (k2, v) :: t => if k2 = k then some v else dictGet t k

/-- Model of Python `d.get(k, default)`. -/
def dictGetD (d : RecDict) (k : String) (v : Json) : Json :=
  (dictGet d k).getD v

/-- Python truthiness of a JSON value. -/
def jsonTruthy : Json → Bool
  | .null => false
  | .bool b => b
  | .num n => n != 0
  | .str s => s != ""
  | .arr l => !l.isEmpty
  | .obj f => !f.isEmpty

/-! The history store.  `HEntry` models one element of
`execution_history` / the persisted `chaossec_history.json` array.  The
fields are the keys written by `_step_learn`, plus `failure_type`, which
`analyze_history` reads from externally supplied history entries. -/

/-- One execution-history entry. -/
structure HEntry where
  iteration_id : Option String := none
  timestamp : Option String := none
  target : Option Json := none
  chaos_type : Option Json := none
  outcome : Option String := none
  test_passed : Option Bool := none
  findings_count : Nat := 0
  failure_type : Option String := none

/-- One element of `analyze_history`'s `common_failures` list
(the dict `\x7b"type": ..., "count": ...\x7d`). -/
structure FailureCount where
  ftype : String
  count : Nat

/-- Result of `AgentBrain.analyze_history`.  The empty-history branch sets
`recommendations`; the non-empty branch sets `successful_tests`,
`failed_tests` and `most_recent`. -/
structure Analysis where
  total_tests : Nat
  success_rate : ℚ
  common_failures : List FailureCount
  recommendations : List String := []
  successful_tests : Option Nat := none
  failed_tests : Option Nat := none
  most_recent : Option HEntry := none

/-- Whether a history entry has `outcome == 'failure'`. -/
def isFailure (e : HEntry) : Bool :=
  e.outcome == some "failure"

/-- The failure type of a history entry, `r.get('failure_type', 'unknown')`. -/
def failKey (e : HEntry) : String :=
  e.failure_type.getD "unknown"

/-- Model of `failure_types[k] = failure_types.get(k, 0) + 1` on a dict in
insertion order: increment an existing key in place, otherwise append. -/
def bumpCount : List (String × Nat) → String → List (String × Nat)
  | [], k => [(k, 1)]
  | (k2, n) :: t, k => if k2 = k then (k2, n + 1) :: t else (k2, n) :: bumpCount t k

/-- The `failure_types` dict built by `analyze_history`: counts of
`failure_type` over the entries whose outcome is `'failure'`, keyed in
first-seen order. -/
def failureCounts (past : List HEntry) : List (String × Nat) :=
  past.foldl (fun acc e => if isFailure e then bumpCount acc (failKey e) else acc) []

/-- Stable descending insertion by count: place `x` before the first
element whose count is at most `x`'s. -/
def insertByCountDesc (x : String × Nat) : List (String × Nat) → List (String × Nat)
  | [] => [x]
  | y :: t => if y.2 ≤ x.2 then x :: y :: t else y :: insertByCountDesc x t

/-- Model of Python `sorted(items, key=lambda x: x[1], reverse=True)`:
a stable sort, descending by count. -/
def sortByCountDesc : List (String × Nat) → List (String × Nat)
  | [] => []
  | x :: t => insertByCountDesc x (sortByCountDesc t)

/-- `AgentBrain.analyze_history`.  Success rate is the exact rational
`successful / total` (Python float division is modelled exactly). -/
def analyze_history (past : List HEntry) : Analysis :=
  if past.isEmpty then
    { total_tests := 0
      success_rate := 0
      common_failures := []
      recommendations := ["No historical data available - start with basic S3 tests"] }
  else
    let total := past.length
    let successful := (past.filter (fun r => r.outcome == some "success")).length
    let failed := (past.filter (fun r => r.outcome == some "failure")).length
    { total_tests := total
      success_rate := (successful : ℚ) / (total : ℚ)
      common_failures :=
        ((sortByCountDesc (failureCounts past)).take 3).map (fun f => ⟨f.1, f.2⟩)
      successful_tests := some successful
      failed_tests := some failed
      most_recent := past.getLast? }

/-- Index (within the full history list) of the first entry that is a
failure with the given failure type; the list's length when there is none. -/
def firstFailureIdx (k : String) : List HEntry → Nat
  | [] => 0
  | e :: t => if isFailure e && (failKey e == k) then 0 else firstFailureIdx k t + 1

/-- Some entry of the list is a failure whose failure type is `k`. -/
def occursFailIn (k : String) (l : List HEntry) : Prop :=
  ∃ e ∈ l, isFailure e = true ∧ failKey e = k

/-! The recommendation normalizer (`AgentBrain._parse_bedrock_response`)
and the logic-level fallback (`AgentBrain._fallback_recommendation`).
`json.loads` is external and is passed in as a function
`jp : String → Except String Json`; a `.error` result models
`json.JSONDecodeError` carrying the error text. -/

/-- The five required recommendation fields checked by the normalizer. -/
def requiredFields : List String :=
  ["target_resource", "chaos_type", "expected_outcome", "validation_criteria",
   "compliance_control"]

/-- Fold filling each listed field that is absent with `"Not specified"`
(dict insertion appends new keys at the end). -/
def fillFold (fs : List String) (d : RecDict) : RecDict :=
  fs.foldl
    (fun acc f =>
      if (dictGet acc f).isNone then acc ++ [(f, Json.str "Not specified")] else acc)
    d

/-- Fill the five required fields that are absent with `"Not specified"`. -/
def fillMissing (d : RecDict) : RecDict :=
  fillFold requiredFields d

/-- The fixed fallback recommendation returned when `json.loads` fails,
with the parse error text attached under `"error"`. -/
def parseErrorFallback (e : String) : RecDict :=
  [("target_resource", Json.str "s3-bucket-default"),
   ("chaos_type", Json.str "make_s3_public"),
   ("expected_outcome", Json.str "Detection by security controls"),
   ("validation_criteria", Json.str "Config compliance check fails"),
   ("compliance_control", Json.str "SOC2:CC6.6"),
   ("reasoning", Json.str "Fallback due to parse error"),
   ("error", Json.str e)]

/-- Strip a leading/trailing markdown code fence: after `strip()`, when the
text starts with a fence marker and has more than 2 lines, the first and
last lines are removed. -/
def stripCodeFence (s : String) : String :=
  let t := pyStrip s
  if pyStartsWith t "```" then
    let lines := pySplitLines t
    if 2 < lines.length then String.intercalate "\x0a" ((lines.drop 1).dropLast)
    else t
  else t

/-- Body of `_parse_bedrock_response` after the fence strip: parse, then on
success over a JSON object fill missing required fields; a parse failure is
caught and turned into the fixed fallback; a parsed non-object value makes
the field loop raise (a `TypeError`, not caught there). -/
def parseBedrockCore (jp : String → Except String Json) (r : String) :
    Except String RecDict :=
  match jp r with
  | .error e => .ok (parseErrorFallback e)
  | .ok (.obj fields) => .ok (fillMissing fields)
  | .ok _ => .error "TypeError: parsed recommendation is not a JSON object"

/-- `AgentBrain._parse_bedrock_response`. -/
def parse_bedrock_response (jp : String → Except String Json) (s : String) :
    Except String RecDict :=
  parseBedrockCore jp (stripCodeFence s)

/-- `AgentBrain._fallback_recommendation`: the deterministic logic-level
fallback used when the Bedrock call itself fails. -/
def fallback_recommendation : RecDict :=
  [("target_resource", Json.str "s3-chaossec-test-bucket"),
   ("chaos_type", Json.str "make_s3_public"),
   ("expected_outcome",
    Json.str "AWS Config should detect non-compliance, security alerts should fire"),
   ("validation_criteria",
    Json.str "Config rule violation detected, CloudWatch alarm triggered"),
   ("compliance_control", Json.str "SOC2:CC6.6 - Logical Access Controls"),
   ("reasoning", Json.str "Starting with fundamental S3 security test (fallback logic)"),
   ("fallback", Json.bool true)]

/-- `AgentBrain.reason_next_chaos`: call Bedrock (external, its outcome is
the `bedrock` argument), parse the response; any exception — a failed call
or a normalizer error — is caught and replaced by the fallback. -/
def reason_next_chaos (jp : String → Except String Json)
    (bedrock : Except String String) : RecDict :=
  match bedrock with
  | .error _ => fallback_recommendation
  | .ok text =>
    match parse_bedrock_response jp text with
    | .error _ => fallback_recommendation
    | .ok d => d

/-! The outcome validator (`ChaosSecOrchestrator._step_validate`). -/

/-- One compliance record as assembled by `AWSHandler.get_config_compliance`
(only the fields the core logic reads). -/
structure ComplianceRec where
  resource_id : Option String := none
  compliance_type : Option String := none

/-- Result of the monitor stage (`_step_monitor`). -/
structure MonitorRes where
  target : Json
  metrics : List Json
  compliance : List ComplianceRec
  events : List Json
  monitored_at : String

/-- Result of the validate stage (`_step_validate`). -/
structure ValidationRes where
  outcome : String
  test_passed : Bool
  expected_outcome : Json
  validation_criteria : Json
  non_compliant_detected : Bool
  compliance_count : Nat
  validated_at : String

/-- `ChaosSecOrchestrator._step_validate`.  The `now` argument models
`datetime.utcnow().isoformat()` at the time of the call. -/
def step_validate (safety_mode : Bool) (monitoring_result : MonitorRes)
    (reasoning_result : RecDict) (now : String) : ValidationRes :=
  let expected_outcome := dictGetD reasoning_result "expected_outcome" (Json.str "")
  let validation_criteria := dictGetD reasoning_result "validation_criteria" (Json.str "")
  let compliance_data := monitoring_result.compliance
  let non_compliant_detected :=
    compliance_data.any (fun c => c.compliance_type == some "NON_COMPLIANT")
  if safety_mode then
    { outcome := "success_simulated"
      test_passed := true
      expected_outcome := expected_outcome
      validation_criteria := validation_criteria
      non_compliant_detected := non_compliant_detected
      compliance_count := compliance_data.length
      validated_at := now }
  else
    let test_passed := non_compliant_detected
    { outcome := if test_passed then "success" else "failure"
      test_passed := test_passed
      expected_outcome := expected_outcome
      validation_criteria := validation_criteria
      non_compliant_detected := non_compliant_detected
      compliance_count := compliance_data.length
      validated_at := now }

/-! The inject stage (`_step_inject_chaos`) and the mutating collaborator
(`AWSHandler.simulate_s3_bucket_misconfiguration`).  The S3 mutation calls
are external; their outcome is passed in as `Except String Unit`, where
`.error` models a `botocore` `ClientError`, the exception class the handler
catches. -/

/-- Result dict of the inject stage.  Optional fields model keys present
only on some code paths. -/
structure ChaosRes where
  bucket : Option Json := none
  target : Option Json := none
  action : Option String := none
  applied : Bool
  safety_mode : Option Bool := none
  simulated_outcome : Option String := none
  outcome : Option String := none
  error : Option String := none
  note : Option String := none
  chaos_type : Option Json := none
  reasoning : Option Json := none

/-- `AWSHandler.simulate_s3_bucket_misconfiguration`.  In safety mode it
returns without touching the S3 client; otherwise it performs the mutation
(outcome given by `s3_make_public` / `s3_fix_public`), catching a
`ClientError` into an `applied=false, outcome=failure` result. -/
def simulate_s3_bucket_misconfiguration (s3_make_public s3_fix_public : Except String Unit)
    (bucket_name : Json) (make_public safety_mode : Bool) : ChaosRes :=
  if safety_mode then
    { bucket := some bucket_name
      action := some (if make_public then "make_public" else "fix_public")
      applied := false
      safety_mode := some true
      simulated_outcome := some "success" }
  else
    match (if make_public then s3_make_public else s3_fix_public) with
    | .ok _ =>
      { bucket := some bucket_name
        action := some (if make_public then "made_public" else "fixed_public")
        applied := true
        safety_mode := some false
        outcome := some "success" }
    | .error e =>
      { bucket := some bucket_name
        action := some (if make_public then "make_public" else "fix_public")
        applied := false
        error := some e
        outcome := some "failure" }

/-- `ChaosSecOrchestrator._step_inject_chaos`.  A `.error` result models an
exception escaping the stage: calling `.lower()` on a non-string
`chaos_type` raises an `AttributeError` that nothing catches. -/
def step_inject_chaos (safety_mode : Bool) (s3_make_public s3_fix_public : Except String Unit)
    (reasoning_result : RecDict) : Except String ChaosRes :=
  let chaos_type := dictGetD reasoning_result "chaos_type" (Json.str "make_s3_public")
  let target := dictGetD reasoning_result "target_resource" (Json.str "chaossec-test-bucket")
  match chaos_type with
  | .str ct =>
    if pyContains (pyLower ct) "public" || pyContains (pyLower ct) "s3" then
      let result :=
        simulate_s3_bucket_misconfiguration s3_make_public s3_fix_public target true safety_mode
      .ok { result with
              chaos_type := some (Json.str ct)
              reasoning := some (dictGetD reasoning_result "reasoning" (Json.str "")) }
    else
      .ok { chaos_type := some (Json.str "make_s3_public")
            target := some target
            applied := false
            safety_mode := some safety_mode
            note := some "Fallback to S3 test" }
  | _ => .error "AttributeError: chaos_type value has no attribute lower"

/-! The remaining stages: simulate, scan, monitor, report, learn. -/

/-- Result of `SystemInitiativeClient.create_digital_twin` (which catches
every exception internally and reports it through `status`/`error`). -/
structure TwinRes where
  twin_id : Option String
  status : String
  resource_count : Option Nat := none
  error : Option String := none

/-- Output of one Semgrep scanner call (`scan_self` / `scan_iac_directory`);
individual findings are opaque JSON dicts. -/
structure SemgrepScan where
  findings : List Json

/-- Result of the scan stage (`_step_scan`). -/
structure ScanRes where
  self_scan : Option SemgrepScan := none
  iac_scan : Option SemgrepScan := none
  combined_findings : List Json
  total_findings : Nat

/-- `ChaosSecOrchestrator._step_scan`: combine the self scan (when a
project root was given) and the IaC scan (when the directory exists). -/
def step_scan (project_root : Bool) (self_scan : SemgrepScan) (iac_exists : Bool)
    (iac_scan : SemgrepScan) : ScanRes :=
  let selfOpt := if project_root then some self_scan else none
  let iacOpt := if project_root && iac_exists then some iac_scan else none
  let combined :=
    (match selfOpt with | some s => s.findings | none => []) ++
    (match iacOpt with | some s => s.findings | none => [])
  { self_scan := selfOpt
    iac_scan := iacOpt
    combined_findings := combined
    total_findings := combined.length }

/-- `ChaosSecOrchestrator._step_monitor`: pick the target from the chaos
result (`get('bucket') or get('target', 'unknown')`) and bundle the
externally fetched metrics, compliance records and events. -/
def step_monitor (metrics : List Json) (compliance : List ComplianceRec)
    (events : List Json) (chaos_result : ChaosRes) (now : String) : MonitorRes :=
  let target :=
    match chaos_result.bucket with
    | some b => if jsonTruthy b then b else (chaos_result.target.getD (Json.str "unknown"))
    | none => chaos_result.target.getD (Json.str "unknown")
  { target := target
    metrics := metrics
    compliance := compliance
    events := events
    monitored_at := now }

/-- Result of the report stage (`_step_report`). -/
structure ReportRes where
  package_id : String
  evidence_count : Nat
  upload_results : List Json
  reported_at : String

/-- `ChaosSecOrchestrator._step_report`: the Vanta evidence package and the
per-item upload results are external inputs. -/
def step_report (package_id : String) (upload_results : List Json) (now : String) :
    ReportRes :=
  { package_id := package_id
    evidence_count := upload_results.length
    upload_results := upload_results
    reported_at := now }

/-- Result of the learn stage (`_step_learn`). -/
structure LearnRes where
  stored : Bool
  history_length : Nat
  history_file : String

/-- The working-directory-relative history file path. -/
def historyFile : String := "chaossec_history.json"

/-! The iteration sequencer.  `StepRes` is the tagged union of the eight
stage results; `Steps` models the `steps` dict of an `IterationResult` in
insertion order. -/

/-- One stage's result. -/
inductive StepRes where
  | simulate (r : TwinRes)
  | scan (r : ScanRes)
  | reason (r : RecDict)
  | chaos (r : ChaosRes)
  | monitor (r : MonitorRes)
  | validate (r : ValidationRes)
  | report (r : ReportRes)
  | learn (r : LearnRes)

/-- The `steps` mapping of an iteration, in insertion order. -/
abbrev Steps := List (String × StepRes)

/-- Look a stage result up by name. -/
def findStep (steps : Steps) (name : String) : Option StepRes :=
  match steps with
  | [] => none
  | (n, r) :: t => if n = name then some r else findStep t name

/-- Extract a reason-stage payload. -/
def asReason : StepRes → Option RecDict
  | .reason r => some r
  | _ => none

/-- Extract a scan-stage payload. -/
def asScan : StepRes → Option ScanRes
  | .scan r => some r
  | _ => none

/-- Extract a chaos-stage payload. -/
def asChaos : StepRes → Option ChaosRes
  | .chaos r => some r
  | _ => none

/-- Extract a validate-stage payload. -/
def asValidate : StepRes → Option ValidationRes
  | .validate r => some r
  | _ => none

/-- Extract a monitor-stage payload. -/
def asMonitor : StepRes → Option MonitorRes
  | .monitor r => some r
  | _ => none

/-- Whether a stage result reports `applied=true` (only the chaos stage
result carries an `applied` key). -/
def reportsApplied : StepRes → Bool
  | .chaos r => r.applied
  | _ => false

/-- The history entry assembled by `_step_learn` from the partial iteration
result (chains of `.get` with `None`/`0` defaults). -/
def mkHistoryEntry (iter_id started : String) (steps : Steps) : HEntry :=
  let reasonD : RecDict := ((findStep steps "reason").bind asReason).getD []
  let validateRes := (findStep steps "validate").bind asValidate
  { iteration_id := some iter_id
    timestamp := some started
    target := dictGet reasonD "target_resource"
    chaos_type := dictGet reasonD "chaos_type"
    outcome := validateRes.map (fun v => v.outcome)
    test_passed := validateRes.map (fun v => v.test_passed)
    findings_count := (((findStep steps "scan").bind asScan).map (fun s => s.total_findings)).getD 0
    failure_type := none }

/-- `ChaosSecOrchestrator._step_learn`: append the entry to the in-memory
history, then try to write the whole history to the file; a write failure
(`write_result = .error`) is logged and otherwise ignored. -/
def step_learn (iter_id started : String) (steps : Steps) (history : List HEntry)
    (write_result : Except String Unit) : LearnRes × List HEntry :=
  let entry := mkHistoryEntry iter_id started steps
  let history2 := history ++ [entry]
  match write_result with
  | _ =>
    ({ stored := true
       history_length := history2.length
       history_file := historyFile }, history2)

/-- A stage behaviour: from the steps attached so far and the current
history, either a result (and updated history) or a raised exception's
text. -/
abbrev StageFn := Steps → List HEntry → Except String (StepRes × List HEntry)

/-- The sequencer core: run the pipeline's stages in order, attaching each
result to the steps map before the next stage runs, stopping at the first
exception. -/
def runStages : List (String × StageFn) → Steps → List HEntry →
    Steps × List HEntry × Option String
  | [], steps, h => (steps, h, none)
  | (name, f) :: rest, steps, h =>
    match f steps h with
    | .error e => (steps, h, some e)
    | .ok (r, h2) => runStages rest (steps ++ [(name, r)]) h2

/-- The eight canonical stage names, in fixed pipeline order (the keys of
the `steps` dict in `_run_single_iteration`). -/
def stage_names : List String :=
  ["simulate", "scan", "reason", "chaos", "monitor", "validate", "report", "learn"]

/-- One iteration result (`IterationResult`). -/
structure IterationResult where
  iteration_id : String
  started_at : String
  steps : Steps
  status : String
  error : Option String := none
  completed_at : Option String := none

/-- `_run_single_iteration` over an arbitrary pipeline: on success
`status=success`; when a stage raises, `status=error`, the error text and
a completion timestamp are recorded, and the steps attached so far are
returned. -/
def run_single_iteration_with (pipeline : List (String × StageFn))
    (iter_id started now : String) (h : List HEntry) : IterationResult × List HEntry :=
  match runStages pipeline [] h with
  | (steps, h2, none) =>
    ({ iteration_id := iter_id
       started_at := started
       steps := steps
       status := "success"
       completed_at := some now }, h2)
  | (steps, h2, some e) =>
    ({ iteration_id := iter_id
       started_at := started
       steps := steps
       status := "error"
       error := some e
       completed_at := some now }, h2)

/-- The configuration fields the core logic reads (the remaining
`ChaosSecConfig` fields are collaborator credentials). -/
structure ChaosSecConfig where
  safety_mode : Bool := true

/-- Outcomes of every external collaborator call made during one
iteration. -/
structure Env where
  twin : TwinRes
  project_root : Bool
  self_scan : SemgrepScan
  iac_exists : Bool
  iac_scan : SemgrepScan
  bedrock : Except String String
  jsonParse : String → Except String Json
  metrics : List Json
  compliance : List ComplianceRec
  events : List Json
  s3_make_public : Except String Unit
  s3_fix_public : Except String Unit
  package_id : String
  upload_results : List Json
  history_write : Except String Unit

/-- A default chaos result used only for a (unreachable) missing lookup. -/
def defaultChaos : ChaosRes := { applied := false }

/-- A default monitor result used only for a (unreachable) missing lookup. -/
def defaultMonitor : MonitorRes :=
  { target := Json.str "unknown"
    metrics := []
    compliance := []
    events := []
    monitored_at := "" }

/-- The concrete eight-stage pipeline of `_run_single_iteration`, with each
stage reading its predecessors' results from the steps map (the map always
holds them, since the sequencer attaches each result before the next stage
runs). -/
def chaossec_pipeline (cfg : ChaosSecConfig) (env : Env) (iter_id started now : String) :
    List (String × StageFn) :=
  [("simulate", fun _ h => .ok (.simulate env.twin, h)),
   ("scan", fun _ h =>
     .ok (.scan (step_scan env.project_root env.self_scan env.iac_exists env.iac_scan), h)),
   ("reason", fun _ h => .ok (.reason (reason_next_chaos env.jsonParse env.bedrock), h)),
   ("chaos", fun steps h =>
     (step_inject_chaos cfg.safety_mode env.s3_make_public env.s3_fix_public
        (((findStep steps "reason").bind asReason).getD [])).map (fun r => (.chaos r, h))),
   ("monitor", fun steps h =>
     .ok (.monitor (step_monitor env.metrics env.compliance env.events
        (((findStep steps "chaos").bind asChaos).getD defaultChaos) now), h)),
   ("validate", fun steps h =>
     .ok (.validate (step_validate cfg.safety_mode
        (((findStep steps "monitor").bind asMonitor).getD defaultMonitor)
        (((findStep steps "reason").bind asReason).getD []) now), h)),
   ("report", fun _ h => .ok (.report (step_report env.package_id env.upload_results now), h)),
   ("learn", fun steps h =>
     let r := step_learn iter_id started steps h env.history_write
     .ok (.learn r.1, r.2))]

/-- `ChaosSecOrchestrator._run_single_iteration`. -/
def run_single_iteration (cfg : ChaosSecConfig) (env : Env)
    (iter_id started now : String) (h : List HEntry) : IterationResult × List HEntry :=
  run_single_iteration_with (chaossec_pipeline cfg env iter_id started now)
    iter_id started now h

/-! The run loop (`run_chaossec_loop`). -/

/-- The loop summary (`loop_results`). -/
structure LoopResult where
  started_at : String
  correlation_id : String
  safety_mode : Bool
  iterations : List IterationResult
  completed_at : Option String := none
  status : String
  total_iterations : Option Nat := none
  summary : Option String := none
  error : Option String := none

/-- Run the sequencer up to `n` times, accumulating iteration results until
an exception escapes it. -/
def runLoopIter (seq : List HEntry → Except String (IterationResult × List HEntry)) :
    Nat → List HEntry → List IterationResult × List HEntry × Option String
  | 0, h => ([], h, none)
  | n + 1, h =>
    match seq h with
    | .error e => ([], h, some e)
    | .ok (r, h2) =>
      let rest := runLoopIter seq n h2
      (r :: rest.1, rest.2)

/-- `run_chaossec_loop` over an arbitrary sequencer behaviour: iterate,
appending each result as it completes; on normal completion stamp
`completed_at`, `status=completed`, the iteration count and the generated
summary; if an exception escapes the sequencer, catch it, set
`status=error` and return the partial results. -/
def run_chaossec_loop_with
    (seq : List HEntry → Except String (IterationResult × List HEntry))
    (max_iterations : Nat) (h : List HEntry)
    (started correlation_id : String) (safety : Bool) (summary_text : String) : LoopResult :=
  match runLoopIter seq max_iterations h with
  | (iters, _, none) =>
    { started_at := started
      correlation_id := correlation_id
      safety_mode := safety
      iterations := iters
      completed_at := some started
      status := "completed"
      total_iterations := some iters.length
      summary := some summary_text }
  | (iters, _, some e) =>
    { started_at := started
      correlation_id := correlation_id
      safety_mode := safety
      iterations := iters
      status := "error"
      error := some e }

/-- `ChaosSecOrchestrator.run_chaossec_loop` with the concrete sequencer. -/
def run_chaossec_loop (cfg : ChaosSecConfig) (env : Env) (max_iterations : Nat)
    (h : List HEntry) (iter_id started now correlation_id summary_text : String) :
    LoopResult :=
  run_chaossec_loop_with (fun h2 => .ok (run_single_iteration cfg env iter_id started now h2))
    max_iterations h started correlation_id cfg.safety_mode summary_text

/-- `completesTo seq h rs h2`: starting from history `h`, `rs` is exactly
the list of iteration results the sequencer produces, one call after the
other, ending in history `h2` with no exception. -/
def completesTo (seq : List HEntry → Except String (IterationResult × List HEntry)) :
    List HEntry → List IterationResult → List HEntry → Prop
  | h, [], h2 => h = h2
  | h, r :: rs, h2 => ∃ hmid, seq h = .ok (r, hmid) ∧ completesTo seq hmid rs h2

/-! Concrete values used to instantiate the theorems below. -/

/-- A concrete digital-twin result. -/
def cexTwin : TwinRes := { twin_id := none, status := "created" }

/-- A concrete scan-stage result. -/
def cexScanRes : ScanRes := { combined_findings := [], total_findings := 0 }

/-- A concrete pipeline over the canonical stage names in which the third
stage (reason) raises an exception whose text is empty after the first two
stages completed. -/
def cexPipeline : List (String × StageFn) :=
  [("simulate", fun _ h => .ok (.simulate cexTwin, h)),
   ("scan", fun _ h => .ok (.scan cexScanRes, h)),
   ("reason", fun _ _ => .error ""),
   ("chaos", fun _ _ => .error "unreached"),
   ("monitor", fun _ _ => .error "unreached"),
   ("validate", fun _ _ => .error "unreached"),
   ("report", fun _ _ => .error "unreached"),
   ("learn", fun _ _ => .error "unreached")]

/-- A concrete collaborator environment for instantiating full-iteration
theorems. -/
def envSafety : Env :=
  { twin := cexTwin
    project_root := false
    self_scan := ⟨[]⟩
    iac_exists := false
    iac_scan := ⟨[]⟩
    bedrock := .error "service unavailable"
    jsonParse := fun _ => .error "Expecting value"
    metrics := []
    compliance := []
    events := []
    s3_make_public := .ok ()
    s3_fix_public := .ok ()
    package_id := "pkg-test"
    upload_results := []
    history_write := .ok () }

/-- A concrete history entry from a passed safety-mode iteration. -/
def simEntry : HEntry := { outcome := some "success_simulated", test_passed := some true }

/-- A concrete external JSON parser used to instantiate the normalizer
theorems: it accepts exactly the text `ok`. -/
def jpCex : String → Except String Json :=
  fun t => if t = "ok" then .ok (Json.obj [("chaos_type", Json.str "stop_ec2")])
           else .error "bad json"

/-! Helper lemmas. -/

/-- Every list is pairwise related by the trivial relation. -/
theorem pairwise_trivial {α : Type} (l : List α) :
    l.Pairwise (fun _ _ => True) := by
  induction l with
  | nil => exact List.Pairwise.nil
  | cons x t ih => exact List.pairwise_cons.mpr ⟨fun y _ => trivial, ih⟩

/-- Membership in a descending insertion. -/
theorem mem_insertByCountDesc {x y : String × Nat} :
    ∀ {t : List (String × Nat)}, y ∈ insertByCountDesc x t ↔ y = x ∨ y ∈ t := by
  intro t
  induction t with
  | nil => simp [insertByCountDesc]
  | cons z t ih =>
    by_cases hz : z.2 ≤ x.2
    · simp [insertByCountDesc, hz]
    · simp [insertByCountDesc, hz, ih]
      tauto

/-- Inserting an element that precedes (in the original order, captured by
`P`) every equal-count element of a sorted list keeps the list pairwise
sorted descending with ties ordered by `P`. -/
theorem insertByCountDesc_pairwise {P : (String × Nat) → (String × Nat) → Prop}
    {x : String × Nat} :
    ∀ {t : List (String × Nat)},
      t.Pairwise (fun a b => b.2 < a.2 ∨ (a.2 = b.2 ∧ P a b)) →
      (∀ y ∈ t, y.2 = x.2 → P x y) →
      (insertByCountDesc x t).Pairwise (fun a b => b.2 < a.2 ∨ (a.2 = b.2 ∧ P a b)) := by
  intro t
  induction t with
  | nil =>
    intro _ _
    simp [insertByCountDesc]
  | cons y t ih =>
    intro hp hx
    obtain ⟨hy, hpt⟩ := List.pairwise_cons.mp hp
    by_cases hyx : y.2 ≤ x.2
    · simp only [insertByCountDesc, hyx, if_true]
      refine List.pairwise_cons.mpr ⟨?_, hp⟩
      intro z hz
      rcases List.mem_cons.mp hz with rfl | hz
      · rcases lt_or_eq_of_le hyx with hlt | heq
        · exact Or.inl hlt
        · exact Or.inr ⟨heq.symm, hx z (List.mem_cons_self z t) heq⟩
      · have hzy : z.2 ≤ y.2 := by
          rcases hy z hz with hlt | ⟨heq, _⟩
          · exact le_of_lt hlt
          · exact le_of_eq heq.symm
        have hzx : z.2 ≤ x.2 := le_trans hzy hyx
        rcases lt_or_eq_of_le hzx with hlt | heq
        · exact Or.inl hlt
        · exact Or.inr ⟨heq.symm, hx z (List.mem_cons_of_mem y hz) heq⟩
    · simp only [insertByCountDesc, hyx, if_false]
      refine List.pairwise_cons.mpr ⟨?_, ih hpt (fun z hz hze => hx z (List.mem_cons_of_mem y hz) hze)⟩
      intro z hz
      rcases mem_insertByCountDesc.mp hz with rfl | hz
      · exact Or.inl (lt_of_not_le hyx)
      · exact hy z hz

/-- Membership is preserved by the descending sort. -/
theorem mem_sortByCountDesc {y : String × Nat} :
    ∀ {l : List (String × Nat)}, y ∈ sortByCountDesc l ↔ y ∈ l := by
  intro l
  induction l with
  | nil => simp [sortByCountDesc]
  | cons x t ih => simp [sortByCountDesc, mem_insertByCountDesc, ih]

/-- Stability of the descending sort: when the input is pairwise ordered by
`P` on equal counts, the sorted output is pairwise descending by count with
ties ordered by `P` (the model of Python's stable
`sorted(key=count, reverse=True)`). -/
theorem sortByCountDesc_pairwise {P : (String × Nat) → (String × Nat) → Prop} :
    ∀ {l : List (String × Nat)},
      l.Pairwise (fun a b => a.2 = b.2 → P a b) →
      (sortByCountDesc l).Pairwise (fun a b => b.2 < a.2 ∨ (a.2 = b.2 ∧ P a b)) := by
  intro l
  induction l with
  | nil =>
    intro _
    simp [sortByCountDesc]
  | cons x t ih =>
    intro hp
    obtain ⟨hx, hpt⟩ := List.pairwise_cons.mp hp
    exact insertByCountDesc_pairwise (ih hpt)
      (fun y hy hyx => hx y (mem_sortByCountDesc.mp hy) hyx.symm)

/-- If every stage of a pipeline only ever returns results satisfying `Q`,
then every attached step result satisfies `Q`. -/
theorem runStages_all {Q : StepRes → Prop} :
    ∀ (ps : List (String × StageFn)) (acc : Steps) (h : List HEntry),
      (∀ p ∈ acc, Q p.2) →
      (∀ nf ∈ ps, ∀ steps h2 r h3, nf.2 steps h2 = .ok (r, h3) → Q r) →
      ∀ p ∈ (runStages ps acc h).1, Q p.2 := by
  intro ps
  induction ps with
  | nil =>
    intro acc h hacc _ p hp
    simpa [runStages] using hacc p hp
  | cons nf rest ih =>
    obtain ⟨name, f⟩ := nf
    intro acc h hacc hstages p hp
    simp only [runStages] at hp
    cases hf : f acc h with
    | error e =>
      rw [hf] at hp
      exact hacc p hp
    | ok rh =>
      obtain ⟨r, h3⟩ := rh
      rw [hf] at hp
      refine ih (acc ++ [(name, r)]) h3 ?_ ?_ p hp
      · intro q hq
        rcases List.mem_append.mp hq with hq | hq
        · exact hacc q hq
        · rcases List.mem_singleton.mp hq with rfl
          exact hstages (name, f) (List.mem_cons_self _ _) acc h r h3 hf
      · intro nf2 hnf2
        exact hstages nf2 (List.mem_cons_of_mem _ hnf2)

/-- Shape of the sequencer run: the attached step names are the input names
plus a prefix of the pipeline's names; the whole pipeline ran exactly when
no stage raised. -/
theorem runStages_shape :
    ∀ (ps : List (String × StageFn)) (acc : Steps) (h : List HEntry),
      ∃ k, k ≤ ps.length ∧
        (runStages ps acc h).1.map Prod.fst = acc.map Prod.fst ++ (ps.map Prod.fst).take k ∧
        ((runStages ps acc h).2.2 = none → k = ps.length) ∧
        ((runStages ps acc h).2.2 ≠ none → k < ps.length) := by
  intro ps
  induction ps with
  | nil =>
    intro acc h
    exact ⟨0, by simp [runStages]⟩
  | cons nf rest ih =>
    obtain ⟨name, f⟩ := nf
    intro acc h
    simp only [runStages]
    cases hf : f acc h with
    | error e =>
      refine ⟨0, by simp, by simp, by simp, by simp⟩
    | ok rh =>
      obtain ⟨r, h3⟩ := rh
      obtain ⟨k, hk, hnames, hnone, hsome⟩ := ih (acc ++ [(name, r)]) h3
      refine ⟨k + 1, by simpa using Nat.succ_le_succ hk, ?_, ?_, ?_⟩
      · rw [hnames]
        simp
      · intro hn
        simpa using congrArg Nat.succ (hnone hn)
      · intro hs
        simpa using Nat.succ_lt_succ (hsome hs)

/-- Running the stages never shortens the accumulated steps. -/
theorem runStages_length_le :
    ∀ (ps : List (String × StageFn)) (acc : Steps) (h : List HEntry),
      acc.length ≤ (runStages ps acc h).1.length := by
  intro ps
  induction ps with
  | nil =>
    intro acc h
    simp [runStages]
  | cons nf rest ih =>
    obtain ⟨name, f⟩ := nf
    intro acc h
    cases hf : f acc h with
    | error e => simp [runStages, hf]
    | ok rh =>
      obtain ⟨r, h3⟩ := rh
      have hle := ih (acc ++ [(name, r)]) h3
      simp only [runStages, hf, List.length_append, List.length_singleton] at hle ⊢
      omega

/-- When a sequencer run ends in an error, the recorded error is exactly
the text raised by the first stage that did not complete — the stage at
the position right after the completed steps — applied to exactly those
completed steps and the history at that point. -/
theorem runStages_err_spec :
    ∀ (ps : List (String × StageFn)) (acc : Steps) (h : List HEntry) (e : String),
      (runStages ps acc h).2.2 = some e →
      ∃ f, ps.get? ((runStages ps acc h).1.length - acc.length) = some f ∧
        f.2 (runStages ps acc h).1 (runStages ps acc h).2.1 = .error e := by
  intro ps
  induction ps with
  | nil =>
    intro acc h e he
    simp [runStages] at he
  | cons nf rest ih =>
    obtain ⟨name, g⟩ := nf
    intro acc h e he
    cases hg : g acc h with
    | error e0 =>
      simp only [runStages, hg] at he ⊢
      simp only [Option.some.injEq] at he
      subst he
      exact ⟨(name, g), by simp, by simpa using hg⟩
    | ok rh =>
      obtain ⟨r, h3⟩ := rh
      simp only [runStages, hg] at he ⊢
      obtain ⟨f, hget, herr⟩ := ih (acc ++ [(name, r)]) h3 e he
      have hlen := runStages_length_le rest (acc ++ [(name, r)]) h3
      simp only [List.length_append, List.length_singleton] at hlen
      refine ⟨f, ?_, herr⟩
      have h1 : (runStages rest (acc ++ [(name, r)]) h3).1.length - acc.length =
          ((runStages rest (acc ++ [(name, r)]) h3).1.length - (acc.length + 1)) + 1 := by
        omega
      rw [h1]
      simpa using hget

/-- If the sequencer completes `rs` and then raises, the loop returns
exactly `rs` together with the raised error. -/
theorem runLoopIter_of_error
    (seq : List HEntry → Except String (IterationResult × List HEntry)) :
    ∀ (rs : List IterationResult) (h h2 : List HEntry) (e : String) (n : Nat),
      completesTo seq h rs h2 → rs.length < n → seq h2 = .error e →
      runLoopIter seq n h = (rs, h2, some e) := by
  intro rs
  induction rs with
  | nil =>
    intro h h2 e n hc hlen hseq
    cases n with
    | zero => omega
    | succ m =>
      have hh : h = h2 := hc
      subst hh
      simp [runLoopIter, hseq]
  | cons r rs ih =>
    intro h h2 e n hc hlen hseq
    obtain ⟨hmid, hok, hrest⟩ := hc
    cases n with
    | zero => omega
    | succ m =>
      have hm : rs.length < m := by
        simpa using Nat.lt_of_succ_lt_succ (by simpa using hlen)
      simp only [runLoopIter, hok]
      rw [ih hmid h2 e m hrest hm hseq]

/-- In safety mode the inject stage always completes with `applied=false`,
without consulting the S3 mutation outcome. -/
theorem step_inject_chaos_safety_applied
    (s3mp s3fp : Except String Unit) (d : RecDict) (r : ChaosRes) :
    step_inject_chaos true s3mp s3fp d = .ok r → r.applied = false := by
  intro hr
  cases hct : dictGetD d "chaos_type" (Json.str "make_s3_public") with
  | str ct =>
    simp only [step_inject_chaos, hct, simulate_s3_bucket_misconfiguration, if_true] at hr
    split at hr <;> (cases hr; rfl)
  | null => simp [step_inject_chaos, hct] at hr
  | bool b => simp [step_inject_chaos, hct] at hr
  | num n => simp [step_inject_chaos, hct] at hr
  | arr l => simp [step_inject_chaos, hct] at hr
  | obj f => simp [step_inject_chaos, hct] at hr

/-- C10: the learn stage appends the new entry to the in-memory history and
always reports `stored=true` with `history_length` equal to the in-memory
history length, independently of whether writing the history file raised
(the write outcome does not influence the returned result or the
history). -/
theorem learn_stage_always_stores :
    ∀ (iter_id started : String) (steps : Steps) (history : List HEntry)
      (w : Except String Unit),
      (step_learn iter_id started steps history w).1.stored = true ∧
      (step_learn iter_id started steps history w).1.history_length =
        ((step_learn iter_id started steps history w).2).length ∧
      (step_learn iter_id started steps history w).2 =
        history ++ [mkHistoryEntry iter_id started steps] ∧
      step_learn iter_id started steps history w =
        step_learn iter_id started steps history (.error "disk full") := by
  intro iter_id started steps history w
  exact ⟨rfl, rfl, rfl, rfl⟩

/-- C3 counterexample: the outcome validator is not a pure function of the
monitoring result, the recommendation and the safety flag — two calls with
those three inputs identical but made at different times return different
outputs, because the output embeds a `validated_at` wall-clock timestamp. -/
theorem validator_not_pure_cex :
    step_validate true defaultMonitor [] "2024-01-01T00:00:00" ≠
      step_validate true defaultMonitor [] "2024-01-01T00:00:01" := by
  intro hEq
  have h2 := congrArg ValidationRes.validated_at hEq
  simp [step_validate] at h2

/-- C3 (amended): the outcome validator is a pure function of the
monitoring result, the recommendation, the safety-mode flag and the call
time; every field except the `validated_at` timestamp depends only on the
first three, so two calls with identical inputs agree everywhere except
possibly in `validated_at`. -/
theorem validator_pure_modulo_timestamp :
    ∀ (s : Bool) (m : MonitorRes) (r : RecDict) (t1 t2 : String),
      (step_validate s m r t1).outcome = (step_validate s m r t2).outcome ∧
      (step_validate s m r t1).test_passed = (step_validate s m r t2).test_passed ∧
      (step_validate s m r t1).expected_outcome = (step_validate s m r t2).expected_outcome ∧
      (step_validate s m r t1).validation_criteria =
        (step_validate s m r t2).validation_criteria ∧
      (step_validate s m r t1).non_compliant_detected =
        (step_validate s m r t2).non_compliant_detected ∧
      (step_validate s m r t1).compliance_count = (step_validate s m r t2).compliance_count ∧
      (t1 = t2 → step_validate s m r t1 = step_validate s m r t2) := by
  intro s m r t1 t2
  cases s <;>
    exact ⟨rfl, rfl, rfl, rfl, rfl, rfl, fun ht => by rw [ht]⟩

/-- C3 witness: the amended purity statement at concrete inputs. -/
theorem validator_pure_modulo_timestamp_witness :
    (step_validate true defaultMonitor [] "t1").outcome =
      (step_validate true defaultMonitor [] "t2").outcome ∧
    step_validate false defaultMonitor [] "t3" = step_validate false defaultMonitor [] "t3" :=
  ⟨(validator_pure_modulo_timestamp true defaultMonitor [] "t1" "t2").1,
   (validator_pure_modulo_timestamp false defaultMonitor [] "t3" "t3").2.2.2.2.2.2 rfl⟩

/-- C9: `analyze_history` counts only the exact outcome `success` as
successful and only `failure` as failed; `success_simulated` — the only
outcome the validator ever produces in safety mode — contributes to
`total_tests` but to neither count, so a non-empty history consisting
solely of passed safety-mode iterations reports a success rate of 0. -/
theorem analyze_counts_only_exact_outcomes :
    ∀ h : List HEntry,
      (∀ m r now, (step_validate true m r now).outcome = "success_simulated" ∧
                  (step_validate true m r now).test_passed = true) ∧
      (h ≠ [] → (∀ e ∈ h, e.outcome = some "success_simulated") →
        (analyze_history h).total_tests = h.length ∧
        (analyze_history h).successful_tests = some 0 ∧
        (analyze_history h).failed_tests = some 0 ∧
        (analyze_history h).success_rate = 0) := by
  intro h
  constructor
  · intro m r now
    exact ⟨rfl, rfl⟩
  · intro hne hall
    have hempty : h.isEmpty = false := by
      cases h with
      | nil => exact absurd rfl hne
      | cons a t => rfl
    have hsucc : h.filter (fun r => r.outcome == some "success") = [] := by
      rw [List.filter_eq_nil_iff]
      intro a ha
      simp [hall a ha]
    have hfail : h.filter (fun r => r.outcome == some "failure") = [] := by
      rw [List.filter_eq_nil_iff]
      intro a ha
      simp [hall a ha]
    refine ⟨?_, ?_, ?_, ?_⟩ <;> simp [analyze_history, hempty, hsucc, hfail]

/-- C9 witness: a singleton safety-mode history evaluates to a zero success
rate. -/
theorem analyze_counts_only_exact_outcomes_witness :
    ([simEntry] ≠ [] ∧ (∀ e ∈ [simEntry], e.outcome = some "success_simulated")) ∧
    (analyze_history [simEntry]).total_tests = 1 ∧
    (analyze_history [simEntry]).success_rate = 0 := by
  have hall : ∀ e ∈ [simEntry], e.outcome = some "success_simulated" := by
    intro e he
    rw [List.mem_singleton] at he
    subst he
    rfl
  have h := (analyze_counts_only_exact_outcomes [simEntry]).2 (by simp) hall
  exact ⟨⟨by simp, hall⟩, h.1, h.2.2.2⟩

/-- C5: `analyze_history` of an empty history returns zero totals, a zero
success rate and a non-empty placeholder recommendation message; of a
non-empty history it returns exactly `successes / total` as the success
rate and at most three common failures sorted descending by count; and it
depends only on the input list. -/
theorem analyze_history_contract :
    ∀ h : List HEntry,
      (h = [] →
        (analyze_history h).total_tests = 0 ∧
        (analyze_history h).success_rate = 0 ∧
        (analyze_history h).recommendations ≠ [] ∧
        ∀ m ∈ (analyze_history h).recommendations, m ≠ "") ∧
      (h ≠ [] →
        (analyze_history h).success_rate =
          ((h.filter (fun r => r.outcome == some "success")).length : ℚ) / (h.length : ℚ) ∧
        (analyze_history h).common_failures.length ≤ 3 ∧
        (analyze_history h).common_failures.Pairwise (fun a b => b.count ≤ a.count)) ∧
      (∀ h2, h2 = h → analyze_history h2 = analyze_history h) := by
  intro h
  refine ⟨?_, ?_, ?_⟩
  · rintro rfl
    refine ⟨rfl, by simp [analyze_history], by simp [analyze_history], ?_⟩
    intro m hm
    simp only [analyze_history, List.isEmpty_nil, if_true, List.mem_singleton] at hm
    subst hm
    decide
  · intro hne
    have hempty : h.isEmpty = false := by
      cases h with
      | nil => exact absurd rfl hne
      | cons a t => rfl
    refine ⟨by simp [analyze_history, hempty], ?_, ?_⟩
    · simp only [analyze_history, hempty, Bool.false_eq_true, if_false, List.length_map,
        List.length_take]
      omega
    · have hp := @sortByCountDesc_pairwise (fun _ _ => True) (failureCounts h)
        ((pairwise_trivial (failureCounts h)).imp (fun _ => fun _ => trivial))
      have hp2 : (sortByCountDesc (failureCounts h)).Pairwise (fun a b => b.2 ≤ a.2) := by
        refine hp.imp ?_
        intro a b hab
        rcases hab with hlt | ⟨heq, _⟩
        · exact le_of_lt hlt
        · exact le_of_eq heq.symm
      have hp3 := List.Pairwise.sublist (List.take_sublist 3 _) hp2
      simp only [analyze_history, hempty, Bool.false_eq_true, if_false]
      exact List.pairwise_map.mpr hp3
  · intro h2 h2eq
    rw [h2eq]

/-- C5 witness: the contract instantiated at the empty history and at a
concrete singleton history. -/
theorem analyze_history_contract_witness :
    ((analyze_history []).total_tests = 0 ∧ (analyze_history []).success_rate = 0) ∧
    (analyze_history [simEntry]).common_failures.length ≤ 3 := by
  refine ⟨?_, ?_⟩
  · have h := (analyze_history_contract []).1 rfl
    exact ⟨h.1, h.2.1⟩
  · exact ((analyze_history_contract [simEntry]).2.1 (by simp)).2.1

/-- C4: whatever the sequencer does, the run loop returns a structured
summary with a status of `completed` or `error`; when an exception escapes
the sequencer after some iterations completed, the summary has
`status=error`, records the error, and retains exactly the results of the
previously completed iterations. -/
theorem run_loop_always_returns :
    ∀ (seq : List HEntry → Except String (IterationResult × List HEntry))
      (n : Nat) (h : List HEntry) (started cid : String) (safety : Bool) (summ : String),
      ((run_chaossec_loop_with seq n h started cid safety summ).status = "completed" ∨
       (run_chaossec_loop_with seq n h started cid safety summ).status = "error") ∧
      (∀ rs h2 e, completesTo seq h rs h2 → rs.length < n → seq h2 = .error e →
        (run_chaossec_loop_with seq n h started cid safety summ).status = "error" ∧
        (run_chaossec_loop_with seq n h started cid safety summ).error = some e ∧
        (run_chaossec_loop_with seq n h started cid safety summ).iterations = rs) := by
  intro seq n h started cid safety summ
  constructor
  · rcases ht : runLoopIter seq n h with ⟨iters, h2, err⟩
    cases err <;> simp [run_chaossec_loop_with, ht]
  · intro rs h2 e hc hlen hseq
    have ht := runLoopIter_of_error seq rs h h2 e n hc hlen hseq
    exact ⟨by simp [run_chaossec_loop_with, ht], by simp [run_chaossec_loop_with, ht],
           by simp [run_chaossec_loop_with, ht]⟩

/-- C4 witness: a sequencer that raises on its first call yields an error
summary with no iterations. -/
theorem run_loop_always_returns_witness :
    (run_chaossec_loop_with (fun _ => .error "boom") 1 [] "s" "c" true "sum").status = "error" ∧
    (run_chaossec_loop_with (fun _ => .error "boom") 1 [] "s" "c" true "sum").error =
      some "boom" ∧
    (run_chaossec_loop_with (fun _ => .error "boom") 1 [] "s" "c" true "sum").iterations = [] :=
  (run_loop_always_returns (fun _ => .error "boom") 1 [] "s" "c" true "sum").2
    [] [] "boom" rfl (by decide) rfl

/-- C2 counterexample: a run of the sequencer in which the third stage
raises an exception whose text is empty, after two stages completed — the
returned result records `status=error` and exactly the two completed
stages, but its error message is the empty string, refuting the claim's
guarantee of a non-empty error message. -/
theorem sequencer_empty_error_message_cex :
    (run_single_iteration_with cexPipeline "i" "s" "n" []).1.status = "error" ∧
    (run_single_iteration_with cexPipeline "i" "s" "n" []).1.steps.map Prod.fst =
      ["simulate", "scan"] ∧
    (run_single_iteration_with cexPipeline "i" "s" "n" []).1.error = some "" :=
  ⟨rfl, rfl, rfl⟩

/-- C2 (amended): when a stage raises after `k` earlier stages completed,
the returned iteration result has `status=error`, an error field recording
exactly the raised exception's text (possibly empty when that text is
empty), a completion timestamp, and a steps mapping holding exactly the `k`
completed stages — its keys a proper prefix, in order, of the eight
canonical stage names; the raising stage is the one right after the
completed prefix and it received exactly the completed steps.  The
program's concrete pipeline carries the canonical names, so this covers
every run of `run_single_iteration`. -/
theorem sequencer_error_partial_steps :
    (∀ (cfg : ChaosSecConfig) (env : Env) (iter_id started now : String),
      (chaossec_pipeline cfg env iter_id started now).map Prod.fst = stage_names) ∧
    ∀ (ps : List (String × StageFn)) (iter_id started now : String) (h : List HEntry),
      ps.map Prod.fst = stage_names →
      (run_single_iteration_with ps iter_id started now h).1.status = "error" →
      (run_single_iteration_with ps iter_id started now h).1.steps.map Prod.fst =
        stage_names.take (run_single_iteration_with ps iter_id started now h).1.steps.length ∧
      (run_single_iteration_with ps iter_id started now h).1.steps.length <
        stage_names.length ∧
      (∃ f e, ps.get? (run_single_iteration_with ps iter_id started now h).1.steps.length =
          some f ∧
        f.2 (run_single_iteration_with ps iter_id started now h).1.steps
          (run_single_iteration_with ps iter_id started now h).2 = .error e ∧
        (run_single_iteration_with ps iter_id started now h).1.error = some e) ∧
      (run_single_iteration_with ps iter_id started now h).1.completed_at = some now := by
  constructor
  · intro cfg env iter_id started now
    rfl
  intro ps iter_id started now h hnames hstatus
  obtain ⟨k, hk, hmap, hnone, hsome⟩ := runStages_shape ps [] h
  have herrspec := runStages_err_spec ps [] h
  rcases ht : runStages ps [] h with ⟨steps, h2, err⟩
  rw [ht] at hmap hnone hsome herrspec
  have hlen8 : ps.length = stage_names.length := by
    simpa using congrArg List.length hnames
  cases err with
  | none =>
    exfalso
    simp [run_single_iteration_with, ht] at hstatus
  | some e =>
    have hklen : k < ps.length := hsome (by simp)
    have hsteps : steps.map Prod.fst = stage_names.take k := by
      simpa [hnames] using hmap
    have hlen : steps.length = k := by
      have hl := congrArg List.length hsteps
      simp only [List.length_map, List.length_take] at hl
      omega
    obtain ⟨f, hget, herr⟩ := herrspec e rfl
    refine ⟨?_, ?_, ?_, ?_⟩
    · simp only [run_single_iteration_with, ht]
      rw [hlen]
      exact hsteps
    · simp only [run_single_iteration_with, ht]
      omega
    · refine ⟨f, e, ?_, ?_, ?_⟩
      · simp only [run_single_iteration_with, ht]
        simpa using hget
      · simp only [run_single_iteration_with, ht]
        exact herr
      · simp [run_single_iteration_with, ht]
    · simp [run_single_iteration_with, ht]

/-- C2 witness: the amended statement instantiated on a concrete pipeline
run in which the third stage raises, recovering the raising stage and its
error text. -/
theorem sequencer_error_partial_steps_witness :
    (cexPipeline.map Prod.fst = stage_names ∧
     (run_single_iteration_with cexPipeline "i" "s" "n" []).1.status = "error") ∧
    (run_single_iteration_with cexPipeline "i" "s" "n" []).1.steps.map Prod.fst =
      stage_names.take (run_single_iteration_with cexPipeline "i" "s" "n" []).1.steps.length ∧
    (run_single_iteration_with cexPipeline "i" "s" "n" []).1.steps.length <
      stage_names.length ∧
    (∃ f e, cexPipeline.get?
        (run_single_iteration_with cexPipeline "i" "s" "n" []).1.steps.length = some f ∧
      f.2 (run_single_iteration_with cexPipeline "i" "s" "n" []).1.steps
        (run_single_iteration_with cexPipeline "i" "s" "n" []).2 = .error e ∧
      (run_single_iteration_with cexPipeline "i" "s" "n" []).1.error = some e) := by
  have h := sequencer_error_partial_steps.2 cexPipeline "i" "s" "n" [] rfl rfl
  exact ⟨⟨rfl, rfl⟩, h.1, h.2.1, h.2.2.1⟩

/-- C1: with `safety_mode=true`, the validate stage returns
`test_passed=true` and `outcome="success_simulated"` regardless of the
monitoring data and the recommendation, and no stage result attached
during the iteration (the inject stage included) reports `applied=true`. -/
theorem safety_mode_invariant :
    ∀ (cfg : ChaosSecConfig) (env : Env) (iter_id started now : String) (h : List HEntry),
      cfg.safety_mode = true →
      (∀ m r, (step_validate cfg.safety_mode m r now).test_passed = true ∧
              (step_validate cfg.safety_mode m r now).outcome = "success_simulated") ∧
      (∀ p ∈ (run_single_iteration cfg env iter_id started now h).1.steps,
        reportsApplied p.2 = false) := by
  intro cfg env iter_id started now h hs
  constructor
  · intro m r
    rw [hs]
    exact ⟨rfl, rfl⟩
  · have hall := @runStages_all (fun r => reportsApplied r = false)
      (chaossec_pipeline cfg env iter_id started now) [] h (by simp) ?_
    · intro p hp
      rcases ht : runStages (chaossec_pipeline cfg env iter_id started now) [] h
        with ⟨steps, h2, err⟩
      rw [ht] at hall
      cases err with
      | none =>
        simp only [run_single_iteration, run_single_iteration_with, ht] at hp
        exact hall p hp
      | some e =>
        simp only [run_single_iteration, run_single_iteration_with, ht] at hp
        exact hall p hp
    · intro nf hnf steps h2 r h3 hok
      simp only [chaossec_pipeline, List.mem_cons, List.mem_singleton,
        List.not_mem_nil, or_false] at hnf
      rcases hnf with rfl | rfl | rfl | rfl | rfl | rfl | rfl | rfl
      · cases hok
        rfl
      · cases hok
        rfl
      · cases hok
        rfl
      · simp only at hok
        cases hin : step_inject_chaos cfg.safety_mode env.s3_make_public env.s3_fix_public
          (((findStep steps "reason").bind asReason).getD []) with
        | error e2 =>
          rw [hin] at hok
          cases hok
        | ok c =>
          rw [hin] at hok
          cases hok
          rw [hs] at hin
          exact step_inject_chaos_safety_applied _ _ _ _ hin
      · cases hok
        rfl
      · cases hok
        rfl
      · cases hok
        rfl
      · simp only at hok
        cases hok
        rfl

/-- C1 witness: a concrete safety-mode iteration in which every attached
stage result reports `applied=false`. -/
theorem safety_mode_invariant_witness :
    (({ safety_mode := true } : ChaosSecConfig).safety_mode = true ∧
     (step_validate true defaultMonitor [] "n").outcome = "success_simulated") ∧
    ((run_single_iteration { safety_mode := true } envSafety "i" "s" "n" []).1.steps.all
      (fun p => !reportsApplied p.2)) = true := by
  have h := safety_mode_invariant { safety_mode := true } envSafety "i" "s" "n" [] rfl
  refine ⟨⟨rfl, (h.1 defaultMonitor []).2⟩, ?_⟩
  rw [List.all_eq_true]
  intro p hp
  simp [h.2 p hp]

/-! Lemmas about `firstFailureIdx` and the failure-type counting fold,
leading to the first-seen tie-break property of `common_failures`. -/

/-- A failure occurrence in a list still occurs after appending. -/
theorem occursFailIn_append_left {k : String} {pre suf : List HEntry} :
    occursFailIn k pre → occursFailIn k (pre ++ suf) := by
  rintro ⟨e, he, hf, hk⟩
  exact ⟨e, List.mem_append.mpr (Or.inl he), hf, hk⟩

/-- When the key occurs in the first part, its first-failure index ignores
the appended part. -/
theorem firstFailureIdx_append_of_occurs {k : String} :
    ∀ {pre : List HEntry} (suf : List HEntry), occursFailIn k pre →
      firstFailureIdx k (pre ++ suf) = firstFailureIdx k pre := by
  intro pre
  induction pre with
  | nil =>
    intro suf h
    rcases h with ⟨e, he, _⟩
    exact absurd he (List.not_mem_nil e)
  | cons a t ih =>
    intro suf h
    by_cases ha : (isFailure a && (failKey a == k)) = true
    · simp [firstFailureIdx, ha]
    · have h2 : occursFailIn k t := by
        rcases h with ⟨e, he, hf, hk⟩
        rcases List.mem_cons.mp he with rfl | he2
        · exact absurd (by simp [hf, hk]) ha
        · exact ⟨e, he2, hf, hk⟩
      simp [firstFailureIdx, ha, ih suf h2]

/-- A key that occurs has its first-failure index inside the list. -/
theorem firstFailureIdx_lt_length_of_occurs {k : String} :
    ∀ {pre : List HEntry}, occursFailIn k pre → firstFailureIdx k pre < pre.length := by
  intro pre
  induction pre with
  | nil =>
    intro h
    rcases h with ⟨e, he, _⟩
    exact absurd he (List.not_mem_nil e)
  | cons a t ih =>
    intro h
    by_cases ha : (isFailure a && (failKey a == k)) = true
    · simp [firstFailureIdx, ha]
    · have h2 : occursFailIn k t := by
        rcases h with ⟨e, he, hf, hk⟩
        rcases List.mem_cons.mp he with rfl | he2
        · exact absurd (by simp [hf, hk]) ha
        · exact ⟨e, he2, hf, hk⟩
      simpa [firstFailureIdx, ha] using ih h2

/-- When the key does not occur in the first part, its first-failure index
skips that part entirely. -/
theorem firstFailureIdx_append_of_not {k : String} :
    ∀ {pre : List HEntry} (suf : List HEntry), ¬occursFailIn k pre →
      firstFailureIdx k (pre ++ suf) = pre.length + firstFailureIdx k suf := by
  intro pre
  induction pre with
  | nil =>
    intro suf _
    simp [firstFailureIdx]
  | cons a t ih =>
    intro suf h
    have ha : ¬((isFailure a && (failKey a == k)) = true) := by
      intro ha2
      apply h
      have := (Bool.and_eq_true _ _).mp ha2
      exact ⟨a, List.mem_cons_self a t, this.1, by simpa using this.2⟩
    have h2 : ¬occursFailIn k t := by
      rintro ⟨e, he, hf, hk⟩
      exact h ⟨e, List.mem_cons_of_mem a he, hf, hk⟩
    rw [List.cons_append]
    simp only [firstFailureIdx]
    rw [if_neg ha, ih suf h2, List.length_cons]
    omega

/-- Bumping an existing key leaves the key list unchanged. -/
theorem bumpCount_fst_mem {k : String} :
    ∀ {acc : List (String × Nat)}, k ∈ acc.map Prod.fst →
      (bumpCount acc k).map Prod.fst = acc.map Prod.fst := by
  intro acc
  induction acc with
  | nil => simp
  | cons p t ih =>
    obtain ⟨k2, n⟩ := p
    intro hmem
    by_cases hk : k2 = k
    · simp [bumpCount, hk]
    · have hmem2 : k ∈ t.map Prod.fst := by
        rcases List.mem_cons.mp hmem with heq | h2
        · exact absurd heq.symm hk
        · exact h2
      simp [bumpCount, hk, ih hmem2]

/-- Bumping a new key appends it to the key list. -/
theorem bumpCount_fst_not_mem {k : String} :
    ∀ {acc : List (String × Nat)}, k ∉ acc.map Prod.fst →
      (bumpCount acc k).map Prod.fst = acc.map Prod.fst ++ [k] := by
  intro acc
  induction acc with
  | nil => simp [bumpCount]
  | cons p t ih =>
    obtain ⟨k2, n⟩ := p
    intro hmem
    have hk : ¬(k2 = k) := by
      intro hk2
      exact hmem (by simp [hk2])
    have hmem2 : k ∉ t.map Prod.fst := by
      intro h2
      exact hmem (by simp [h2])
    simp [bumpCount, hk, ih hmem2]

/-- Invariant of the failure-counting fold: the accumulated keys are
pairwise ordered by the index of their first failure occurrence in the
history processed so far. -/
theorem failureCounts_fold_pairwise :
    ∀ (suf pre : List HEntry) (acc : List (String × Nat)),
      (∀ k ∈ acc.map Prod.fst, occursFailIn k pre) →
      (∀ e ∈ pre, isFailure e = true → failKey e ∈ acc.map Prod.fst) →
      (acc.map Prod.fst).Pairwise
        (fun a b => firstFailureIdx a pre < firstFailureIdx b pre) →
      ((suf.foldl (fun acc e => if isFailure e then bumpCount acc (failKey e) else acc)
          acc).map Prod.fst).Pairwise
        (fun a b => firstFailureIdx a (pre ++ suf) < firstFailureIdx b (pre ++ suf)) := by
  intro suf
  induction suf with
  | nil =>
    intro pre acc _ _ h3
    simpa using h3
  | cons e suf ih =>
    intro pre acc h1 h2 h3
    rw [List.foldl_cons]
    have hassoc : pre ++ e :: suf = (pre ++ [e]) ++ suf := by simp
    rw [hassoc]
    by_cases hf : isFailure e = true
    · rw [if_pos hf]
      by_cases hmem : failKey e ∈ acc.map Prod.fst
      · apply ih (pre ++ [e]) (bumpCount acc (failKey e))
        · intro k hk
          rw [bumpCount_fst_mem hmem] at hk
          exact occursFailIn_append_left (h1 k hk)
        · intro e2 he2 hf2
          rw [bumpCount_fst_mem hmem]
          rcases List.mem_append.mp he2 with h | h
          · exact h2 e2 h hf2
          · rcases List.mem_singleton.mp h with rfl
            exact hmem
        · rw [bumpCount_fst_mem hmem]
          refine List.Pairwise.imp_of_mem ?_ h3
          intro a b ha hb hab
          rw [firstFailureIdx_append_of_occurs [e] (h1 a ha),
              firstFailureIdx_append_of_occurs [e] (h1 b hb)]
          exact hab
      · apply ih (pre ++ [e]) (bumpCount acc (failKey e))
        · intro k hk
          rw [bumpCount_fst_not_mem hmem] at hk
          rcases List.mem_append.mp hk with hk | hk
          · exact occursFailIn_append_left (h1 k hk)
          · rcases List.mem_singleton.mp hk with rfl
            exact ⟨e, by simp, hf, rfl⟩
        · intro e2 he2 hf2
          rw [bumpCount_fst_not_mem hmem]
          rcases List.mem_append.mp he2 with h | h
          · exact List.mem_append.mpr (Or.inl (h2 e2 h hf2))
          · rcases List.mem_singleton.mp h with rfl
            exact List.mem_append.mpr (Or.inr (by simp))
        · rw [bumpCount_fst_not_mem hmem]
          rw [List.pairwise_append]
          refine ⟨?_, by simp, ?_⟩
          · refine List.Pairwise.imp_of_mem ?_ h3
            intro a b ha hb hab
            rw [firstFailureIdx_append_of_occurs [e] (h1 a ha),
                firstFailureIdx_append_of_occurs [e] (h1 b hb)]
            exact hab
          · intro a ha b hb
            rcases List.mem_singleton.mp hb with rfl
            have hnotpre : ¬occursFailIn (failKey e) pre := by
              rintro ⟨e2, he2, hf2, hk2⟩
              exact hmem (hk2 ▸ h2 e2 he2 hf2)
            have h1a := h1 a ha
            have hlt := firstFailureIdx_lt_length_of_occurs h1a
            have hz : firstFailureIdx (failKey e) [e] = 0 := by
              simp [firstFailureIdx, hf]
            rw [firstFailureIdx_append_of_occurs [e] h1a,
                firstFailureIdx_append_of_not [e] hnotpre, hz]
            omega
    · rw [if_neg hf]
      apply ih (pre ++ [e]) acc
      · intro k hk
        exact occursFailIn_append_left (h1 k hk)
      · intro e2 he2 hf2
        rcases List.mem_append.mp he2 with h | h
        · exact h2 e2 h hf2
        · rcases List.mem_singleton.mp h with rfl
          exact absurd hf2 hf
      · refine List.Pairwise.imp_of_mem ?_ h3
        intro a b ha hb hab
        rw [firstFailureIdx_append_of_occurs [e] (h1 a ha),
            firstFailureIdx_append_of_occurs [e] (h1 b hb)]
        exact hab

/-- The failure-type counts are listed in first-seen order of the failure
types in the history. -/
theorem failureCounts_pairwise (past : List HEntry) :
    (failureCounts past).Pairwise
      (fun a b => firstFailureIdx a.1 past < firstFailureIdx b.1 past) := by
  have h := failureCounts_fold_pairwise past [] [] (by simp) (by simp) (by simp)
  rw [List.nil_append] at h
  have h2 : ((failureCounts past).map Prod.fst).Pairwise
      (fun a b => firstFailureIdx a past < firstFailureIdx b past) := h
  exact (@List.pairwise_map (String × Nat) String Prod.fst
    (fun a b => firstFailureIdx a past < firstFailureIdx b past)
    (failureCounts past)).mp h2

/-- C6: the `common_failures` computed by `analyze_history` are pairwise
ordered descending by count, and two entries with equal counts are ordered
by the index of their first failure occurrence in the history list (the
earlier one first). -/
theorem common_failures_order :
    ∀ past : List HEntry,
      (analyze_history past).common_failures.Pairwise
        (fun a b => b.count < a.count ∨
          (a.count = b.count ∧
            firstFailureIdx a.ftype past < firstFailureIdx b.ftype past)) := by
  intro past
  by_cases hne : past.isEmpty
  · simp [analyze_history, hne]
  · have hp1 := failureCounts_pairwise past
    have hp2 := @sortByCountDesc_pairwise
      (fun a b => firstFailureIdx a.1 past < firstFailureIdx b.1 past)
      (failureCounts past) (hp1.imp (fun hab => fun _ => hab))
    have hp3 := List.Pairwise.sublist (List.take_sublist 3 _) hp2
    have hne2 : past.isEmpty = false := by simpa using hne
    simp only [analyze_history, hne2, Bool.false_eq_true, if_false]
    exact List.pairwise_map.mpr hp3

/-! Lemmas about `dictGet` and `fillFold`, leading to the normalizer
contract. -/

/-- A key found in the first dict is found in the concatenation. -/
theorem dictGet_append_of_some {d1 : RecDict} {k : String} {v : Json} :
    ∀ (d2 : RecDict), dictGet d1 k = some v → dictGet (d1 ++ d2) k = some v := by
  induction d1 with
  | nil =>
    intro d2 h
    exact absurd h (by simp [dictGet])
  | cons p t ih =>
    obtain ⟨k2, w⟩ := p
    intro d2 h
    by_cases hk : k2 = k
    · simpa [dictGet, hk] using h
    · rw [dictGet] at h
      rw [if_neg hk] at h
      simpa [dictGet, hk] using ih d2 h

/-- A key absent from the first dict is looked up in the second. -/
theorem dictGet_append_of_none {d1 : RecDict} {k : String} :
    ∀ (d2 : RecDict), dictGet d1 k = none → dictGet (d1 ++ d2) k = dictGet d2 k := by
  induction d1 with
  | nil =>
    intro d2 _
    rfl
  | cons p t ih =>
    obtain ⟨k2, w⟩ := p
    intro d2 h
    by_cases hk : k2 = k
    · rw [dictGet] at h
      rw [if_pos hk] at h
      cases h
    · rw [dictGet] at h
      rw [if_neg hk] at h
      simpa [dictGet, hk] using ih d2 h

/-- Unfolding one step of the filling fold. -/
theorem fillFold_cons (f : String) (fs : List String) (d : RecDict) :
    fillFold (f :: fs) d =
      fillFold fs
        (if (dictGet d f).isNone then d ++ [(f, Json.str "Not specified")] else d) := by
  rw [fillFold, fillFold, List.foldl_cons]

/-- Filling never changes a key that is already present. -/
theorem fillFold_preserves :
    ∀ (fs : List String) (d : RecDict) (k : String),
      (dictGet d k).isSome = true → dictGet (fillFold fs d) k = dictGet d k := by
  intro fs
  induction fs with
  | nil =>
    intro d k _
    rfl
  | cons f fs ih =>
    intro d k hk
    rw [fillFold_cons]
    by_cases hdf : (dictGet d f).isNone = true
    · rw [if_pos hdf]
      obtain ⟨v, hv⟩ := Option.isSome_iff_exists.mp hk
      have happ := dictGet_append_of_some [(f, Json.str "Not specified")] hv
      rw [ih (d ++ [(f, Json.str "Not specified")]) k (by simp [happ]), happ, hv]
    · rw [if_neg hdf]
      exact ih d k hk

/-- Every required field that is absent is filled with `Not specified`. -/
theorem fillFold_fills :
    ∀ (fs : List String) (d : RecDict) (f : String),
      f ∈ fs → dictGet d f = none →
      dictGet (fillFold fs d) f = some (Json.str "Not specified") := by
  intro fs
  induction fs with
  | nil =>
    intro d f hmem _
    exact absurd hmem (List.not_mem_nil f)
  | cons g fs ih =>
    intro d f hmem hnone
    rw [fillFold_cons]
    by_cases hgf : g = f
    · subst hgf
      rw [if_pos (by simp [hnone])]
      have h1 : dictGet (d ++ [(g, Json.str "Not specified")]) g =
          some (Json.str "Not specified") := by
        rw [dictGet_append_of_none _ hnone]
        simp [dictGet]
      rw [fillFold_preserves fs (d ++ [(g, Json.str "Not specified")]) g (by simp [h1]), h1]
    · have hf : f ∈ fs := by
        rcases List.mem_cons.mp hmem with heq | hf
        · exact absurd heq.symm hgf
        · exact hf
      by_cases hdg : (dictGet d g).isNone = true
      · rw [if_pos hdg]
        have hstep : dictGet (d ++ [(g, Json.str "Not specified")]) f = none := by
          rw [dictGet_append_of_none _ hnone]
          simp [dictGet, hgf]
        exact ih (d ++ [(g, Json.str "Not specified")]) f hf hstep
      · rw [if_neg hdg]
        exact ih d f hf hnone

/-- After filling, every listed field is present. -/
theorem fillFold_some :
    ∀ (fs : List String) (d : RecDict) (f : String),
      f ∈ fs → (dictGet (fillFold fs d) f).isSome = true := by
  intro fs d f hmem
  cases hdf : dictGet d f with
  | some v =>
    rw [fillFold_preserves fs d f (by simp [hdf]), hdf]
    rfl
  | none =>
    rw [fillFold_fills fs d f hmem hdf]
    rfl

/-- C7: the recommendation normalizer strips a fenced block (first and last
line removed when the stripped text starts with a fence marker and has more
than 2 lines) before parsing; on a successful parse it fills each absent
required field with `Not specified`, preserves present fields, and never
fails because of missing fields; on a parse failure it returns the fixed
fallback with `chaos_type=make_s3_public`, reasoning
`Fallback due to parse error`, and the parse error text in `error`. -/
theorem normalizer_contract :
    ∀ (jp : String → Except String Json) (s : String),
      (pyStartsWith (pyStrip s) "```" = true → 2 < (pySplitLines (pyStrip s)).length →
        parse_bedrock_response jp s =
          parseBedrockCore jp
            (String.intercalate "\x0a" (((pySplitLines (pyStrip s)).drop 1).dropLast))) ∧
      (∀ fields, jp (stripCodeFence s) = .ok (Json.obj fields) →
        parse_bedrock_response jp s = .ok (fillMissing fields) ∧
        (∀ f ∈ requiredFields, (dictGet (fillMissing fields) f).isSome = true) ∧
        (∀ f ∈ requiredFields, dictGet fields f = none →
          dictGet (fillMissing fields) f = some (Json.str "Not specified")) ∧
        (∀ k v, dictGet fields k = some v → dictGet (fillMissing fields) k = some v)) ∧
      (∀ e, jp (stripCodeFence s) = .error e →
        parse_bedrock_response jp s = .ok (parseErrorFallback e) ∧
        dictGet (parseErrorFallback e) "chaos_type" = some (Json.str "make_s3_public") ∧
        dictGet (parseErrorFallback e) "reasoning" =
          some (Json.str "Fallback due to parse error") ∧
        dictGet (parseErrorFallback e) "error" = some (Json.str e)) := by
  intro jp s
  refine ⟨?_, ?_, ?_⟩
  · intro h1 h2
    simp [parse_bedrock_response, stripCodeFence, h1, h2]
  · intro fields hjp
    refine ⟨by simp [parse_bedrock_response, parseBedrockCore, hjp], ?_, ?_, ?_⟩
    · intro f hf
      exact fillFold_some requiredFields fields f hf
    · intro f hf hnone
      exact fillFold_fills requiredFields fields f hf hnone
    · intro k v hv
      show dictGet (fillFold requiredFields fields) k = some v
      rw [fillFold_preserves requiredFields fields k (by simp [hv])]
      exact hv
  · intro e hjp
    exact ⟨by simp [parse_bedrock_response, parseBedrockCore, hjp], rfl, rfl, rfl⟩

/-- C7 witness: the normalizer contract instantiated with a concrete parser
on a fenced input, a parse failure and a successful parse with a missing
required field. -/
theorem normalizer_contract_witness :
    parse_bedrock_response jpCex "zzz" = .ok (parseErrorFallback "bad json") ∧
    parse_bedrock_response jpCex "ok" =
      .ok (fillMissing [("chaos_type", Json.str "stop_ec2")]) ∧
    dictGet (fillMissing [("chaos_type", Json.str "stop_ec2")]) "target_resource" =
      some (Json.str "Not specified") ∧
    parse_bedrock_response jpCex "```json\x0aok\x0a```" =
      parseBedrockCore jpCex
        (String.intercalate "\x0a"
          (((pySplitLines (pyStrip "```json\x0aok\x0a```")).drop 1).dropLast)) := by
  refine ⟨((normalizer_contract jpCex "zzz").2.2 "bad json" rfl).1, ?_, ?_, ?_⟩
  · exact ((normalizer_contract jpCex "ok").2.1 [("chaos_type", Json.str "stop_ec2")] rfl).1
  · exact ((normalizer_contract jpCex "ok").2.1 [("chaos_type", Json.str "stop_ec2")]
      rfl).2.2.1 "target_resource" (by decide) rfl
  · exact (normalizer_contract jpCex "```json\x0aok\x0a```").1 rfl (by decide)

/-- C8 counterexample: a recommendation whose `chaos_type` value is a JSON
number makes the inject stage raise (an `AttributeError` from calling
`.lower()` on a non-string), refuting "the inject stage never raises" for
every recommendation. -/
theorem inject_stage_raises_cex :
    step_inject_chaos true (.ok ()) (.ok ()) [("chaos_type", Json.num 1)] =
      .error "AttributeError: chaos_type value has no attribute lower" := rfl

/-- C8 (amended): for every recommendation whose `chaos_type` field, when
present, is a string, the inject stage never raises: a fault type
containing neither `public` nor `s3` (case-insensitive) yields
`applied=false` with a note that it fell back to the canonical S3 test, and
a `ClientError` raised by the mutating collaborator call is caught and
converted into `applied=false`, `outcome=failure` rather than
propagated. -/
theorem inject_stage_no_raise :
    ∀ (safety : Bool) (s3mp s3fp : Except String Unit) (d : RecDict),
      (∀ v, dictGet d "chaos_type" = some v → ∃ ct, v = Json.str ct) →
      (∃ res, step_inject_chaos safety s3mp s3fp d = .ok res) ∧
      (∀ ct, dictGetD d "chaos_type" (Json.str "make_s3_public") = Json.str ct →
        pyContains (pyLower ct) "public" = false → pyContains (pyLower ct) "s3" = false →
        step_inject_chaos safety s3mp s3fp d =
          .ok { chaos_type := some (Json.str "make_s3_public")
                target := some (dictGetD d "target_resource" (Json.str "chaossec-test-bucket"))
                applied := false
                safety_mode := some safety
                note := some "Fallback to S3 test" }) ∧
      (∀ ct e, dictGetD d "chaos_type" (Json.str "make_s3_public") = Json.str ct →
        (pyContains (pyLower ct) "public" = true ∨ pyContains (pyLower ct) "s3" = true) →
        safety = false → s3mp = .error e →
        ∃ res, step_inject_chaos safety s3mp s3fp d = .ok res ∧
          res.applied = false ∧ res.outcome = some "failure" ∧ res.error = some e) := by
  intro safety s3mp s3fp d hstr
  have hct0 : ∃ ct, dictGetD d "chaos_type" (Json.str "make_s3_public") = Json.str ct := by
    cases hdg : dictGet d "chaos_type" with
    | none =>
      exact ⟨"make_s3_public", by simp [dictGetD, hdg]⟩
    | some v =>
      obtain ⟨ct, rfl⟩ := hstr v hdg
      exact ⟨ct, by simp [dictGetD, hdg]⟩
  obtain ⟨ct0, hct0⟩ := hct0
  refine ⟨?_, ?_, ?_⟩
  · by_cases hdis : (pyContains (pyLower ct0) "public" || pyContains (pyLower ct0) "s3") = true
    · refine ⟨{ simulate_s3_bucket_misconfiguration s3mp s3fp
                  (dictGetD d "target_resource" (Json.str "chaossec-test-bucket")) true safety with
                chaos_type := some (Json.str ct0)
                reasoning := some (dictGetD d "reasoning" (Json.str "")) }, ?_⟩
      simp [step_inject_chaos, hct0, hdis]
    · refine ⟨{ chaos_type := some (Json.str "make_s3_public")
                target := some (dictGetD d "target_resource" (Json.str "chaossec-test-bucket"))
                applied := false
                safety_mode := some safety
                note := some "Fallback to S3 test" }, ?_⟩
      simp [step_inject_chaos, hct0, hdis]
  · intro ct hct hp hs3
    rw [hct0] at hct
    cases hct
    simp [step_inject_chaos, hct0, hp, hs3]
  · intro ct e hct hdis hsafe hmp
    subst hsafe
    rw [hct0] at hct
    cases hct
    have hcond : (pyContains (pyLower ct0) "public" || pyContains (pyLower ct0) "s3") = true := by
      rcases hdis with hd | hd <;> simp [hd]
    refine ⟨{ bucket := some (dictGetD d "target_resource" (Json.str "chaossec-test-bucket"))
              action := some "make_public"
              applied := false
              error := some e
              outcome := some "failure"
              chaos_type := some (Json.str ct0)
              reasoning := some (dictGetD d "reasoning" (Json.str "")) }, ?_, rfl, rfl, rfl⟩
    simp [step_inject_chaos, hct0, hcond, simulate_s3_bucket_misconfiguration, hmp]

/-- C8 witness: the amended inject contract instantiated on a concrete
unrecognized fault type and on a concrete collaborator failure. -/
theorem inject_stage_no_raise_witness :
    step_inject_chaos true (.ok ()) (.ok ()) [("chaos_type", Json.str "stop_ec2")] =
      .ok { chaos_type := some (Json.str "make_s3_public")
            target := some (Json.str "chaossec-test-bucket")
            applied := false
            safety_mode := some true
            note := some "Fallback to S3 test" } ∧
    (∃ res, step_inject_chaos false (.error "AccessDenied") (.ok ())
        [("chaos_type", Json.str "make_s3_public")] = .ok res ∧
      res.applied = false ∧ res.outcome = some "failure" ∧ res.error = some "AccessDenied") := by
  have hstr1 : ∀ v, dictGet [("chaos_type", Json.str "stop_ec2")] "chaos_type" = some v →
      ∃ ct, v = Json.str ct := by
    intro v hv
    rw [show dictGet [("chaos_type", Json.str "stop_ec2")] "chaos_type" =
      some (Json.str "stop_ec2") from rfl] at hv
    cases hv
    exact ⟨"stop_ec2", rfl⟩
  have hstr2 : ∀ v, dictGet [("chaos_type", Json.str "make_s3_public")] "chaos_type" = some v →
      ∃ ct, v = Json.str ct := by
    intro v hv
    rw [show dictGet [("chaos_type", Json.str "make_s3_public")] "chaos_type" =
      some (Json.str "make_s3_public") from rfl] at hv
    cases hv
    exact ⟨"make_s3_public", rfl⟩
  constructor
  · exact (inject_stage_no_raise true (.ok ()) (.ok ())
      [("chaos_type", Json.str "stop_ec2")] hstr1).2.1 "stop_ec2" rfl (by decide) (by decide)
  · exact (inject_stage_no_raise false (.error "AccessDenied") (.ok ())
      [("chaos_type", Json.str "make_s3_public")] hstr2).2.2 "make_s3_public" "AccessDenied"
      rfl (Or.inr (by decide)) rfl rfl

end ChaosSec
